import Mathlib

/-!
# Verification of the MCP client tool-discovery / selection / invocation pipeline

Shallow embedding of the orchestration logic of the `mcp-client-typescript`
repository (variants `index_anthoropic_api.ts`, `index_gemini_api.ts` and the
two unnamed variants).  JavaScript values appearing in tool payloads are
modelled by the `Json` type below; JavaScript numbers are modelled as integers
(the payload round-trip properties proved here concern the structural part of
serialization, not floating-point formatting).  Strings are Lean `String`s,
i.e. sequences of Unicode scalar values.  All definitions are executable and
structurally recursive so that concrete runs evaluate by `rfl` / `decide`.
-/

/-! ## Character classes used by the JavaScript string primitives -/

/-- The JavaScript whitespace class: the characters matched by `\s` in a
regular expression and stripped by `String.prototype.trim` (space, tab, line
feed, carriage return, vertical tab, form feed, NBSP, line/paragraph
separator, BOM). -/
def jsWhitespaceChar (c : Char) : Bool :=
  c == ' ' || c == '\t' || c == '\n' || c == '\r' || c == '\x0b' || c == '\x0c' ||
  c == '\u00A0' || c == '\u1680' || ('\u2000' ≤ c && c ≤ '\u200A') || c == '\u2028' ||
  c == '\u2029' || c == '\u202F' || c == '\u205F' || c == '\u3000' || c == '\uFEFF'

/-- JavaScript line terminators: the characters that `.` in a regular
expression (without the `s` flag) does not match. -/
def lineTermChar (c : Char) : Bool :=
  c == '\n' || c == '\r' || c == '\u2028' || c == '\u2029'

/-- `String.prototype.trim`: strip leading and trailing whitespace. -/
def jsTrim (s : String) : String :=
  ⟨((s.data.dropWhile jsWhitespaceChar).reverse.dropWhile jsWhitespaceChar).reverse⟩

/-- `String.prototype.toLowerCase`, restricted to ASCII letters (the letters
relevant to the comparisons made by the program, e.g. with `"ok"`). -/
def asciiLowerChar (c : Char) : Char :=
  if 'A' ≤ c ∧ c ≤ 'Z' then Char.ofNat (c.toNat + 32) else c

/-- ASCII lowering of a whole string, modelling `toLowerCase`. -/
def asciiLower (s : String) : String := ⟨s.data.map asciiLowerChar⟩

/-- ASCII decimal digit test. -/
def isDigitChar (c : Char) : Bool := '0' ≤ c && c ≤ '9'

/-! ## JSON values

`Json` models the JavaScript values manipulated by the client: tool input
schemas, tool arguments and MCP invocation results.  Arrays and objects are
mutual inductives (rather than nested `List`s) so that every function below
is structurally recursive and reduces inside the kernel. -/

mutual
inductive Json where
  | null : Json
  | bool (b : Bool) : Json
  | num (n : Int) : Json
  | str (s : String) : Json
  | arr (a : JArr) : Json
  | obj (o : JObj) : Json
inductive JArr where
  | nil : JArr
  | cons (hd : Json) (tl : JArr) : JArr
inductive JObj where
  | nil : JObj
  | cons (key : String) (val : Json) (tl : JObj) : JObj
end

/-- The elements of a JSON array, as a Lean list. -/
def JArr.toList : JArr → List Json
  | .nil => []
  | .cons h t => h :: JArr.toList t

/- Structural size, used as a recursion budget for the JSON parser. -/
mutual
def jsize : Json → Nat
  | .null => 1
  | .bool _ => 1
  | .num _ => 1
  | .str _ => 1
  | .arr a => 2 + asize a
  | .obj o => 2 + osize o
def asize : JArr → Nat
  | .nil => 0
  | .cons h t => jsize h + asize t
def osize : JObj → Nat
  | .nil => 0
  | .cons _ v t => jsize v + osize t
end

/-! ## `JSON.stringify`

Two serializers used by the source: the compact form `JSON.stringify(x)` and
the pretty-printed form `JSON.stringify(x, null, 2)` (two-space indentation).
Braces are written `\x7b` / `\x7d`. -/

/-- The serialized scalar keywords. -/
def litNull : List Char := "null".data

/-- `true`, serialized. -/
def litTrue : List Char := "true".data

/-- `false`, serialized. -/
def litFalse : List Char := "false".data

/-- The decimal digit character for `n < 10`. -/
def digitChar (n : Nat) : Char := Char.ofNat (48 + n)

/-- Decimal digits of `n`, most significant first; `f` is a recursion budget
(any `f > n` is enough). -/
def natCharsAux : Nat → Nat → List Char
  | 0, _ => []
  | f + 1, n => if n < 10 then [digitChar n] else natCharsAux f (n / 10) ++ [digitChar (n % 10)]

/-- Decimal representation of a natural number. -/
def natChars (n : Nat) : List Char := natCharsAux (n + 1) n

/-- Decimal representation of an integer (JavaScript number serialization,
restricted to integers). -/
def intChars : Int → List Char
  | .ofNat n => natChars n
  | .negSucc n => '-' :: natChars (n + 1)

/-- Lower-case hexadecimal digit character for `n < 16`. -/
def hexDigitChar (n : Nat) : Char :=
  if n < 10 then digitChar n else Char.ofNat (87 + n)

/-- JSON string escaping as performed by `JSON.stringify`: quote, backslash
and the named control escapes get a two-character escape, all other control
characters a `\u00XX` escape, anything else stands for itself. -/
def escapeChar (c : Char) : List Char :=
  if c = '"' then ['\\', '"']
  else if c = '\\' then ['\\', '\\']
  else if c = '\x08' then ['\\', 'b']
  else if c = '\x0c' then ['\\', 'f']
  else if c = '\n' then ['\\', 'n']
  else if c = '\r' then ['\\', 'r']
  else if c = '\t' then ['\\', 't']
  else if c.toNat < 32 then
    ['\\', 'u', '0', '0', hexDigitChar (c.toNat / 16), hexDigitChar (c.toNat % 16)]
  else [c]

/-- Escape every character of a string body. -/
def escapeList : List Char → List Char
  | [] => []
  | c :: cs => escapeChar c ++ escapeList cs

/-- A JSON string literal: quotes around the escaped body. -/
def quoteStr (s : String) : List Char := '"' :: (escapeList s.data ++ ['"'])

/-- `n` spaces of indentation at nesting depth `n` levels of 2 spaces. -/
def ind (d : Nat) : List Char := List.replicate (2 * d) ' '

/- `JSON.stringify(v, null, 2)` at nesting depth `d`. -/
mutual
def sVal : Json → Nat → List Char
  | .null, _ => litNull
  | .bool true, _ => litTrue
  | .bool false, _ => litFalse
  | .num n, _ => intChars n
  | .str s, _ => quoteStr s
  | .arr .nil, _ => ['[', ']']
  | .arr (.cons h t), d =>
    '[' :: '\n' :: (ind (d + 1) ++ sVal h (d + 1) ++ sArrTail t (d + 1) ++
      '\n' :: (ind d ++ [']']))
  | .obj .nil, _ => ['\x7b', '\x7d']
  | .obj (.cons k v t), d =>
    '\x7b' :: '\n' :: (ind (d + 1) ++ quoteStr k ++ ':' :: ' ' :: sVal v (d + 1) ++
      sObjTail t (d + 1) ++ '\n' :: (ind d ++ ['\x7d']))
def sArrTail : JArr → Nat → List Char
  | .nil, _ => []
  | .cons h t, d => ',' :: '\n' :: (ind d ++ sVal h d ++ sArrTail t d)
def sObjTail : JObj → Nat → List Char
  | .nil, _ => []
  | .cons k v t, d =>
    ',' :: '\n' :: (ind d ++ quoteStr k ++ ':' :: ' ' :: sVal v d ++ sObjTail t d)
end

/-- `JSON.stringify(v, null, 2)` as a string. -/
def stringifyPretty (v : Json) : String := ⟨sVal v 0⟩

/- `JSON.stringify(v)` (compact form, no whitespace). -/
mutual
def cVal : Json → List Char
  | .null => litNull
  | .bool true => litTrue
  | .bool false => litFalse
  | .num n => intChars n
  | .str s => quoteStr s
  | .arr .nil => ['[', ']']
  | .arr (.cons h t) => '[' :: (cVal h ++ cArrTail t ++ [']'])
  | .obj .nil => ['\x7b', '\x7d']
  | .obj (.cons k v t) => '\x7b' :: (quoteStr k ++ ':' :: cVal v ++ cObjTail t ++ ['\x7d'])
def cArrTail : JArr → List Char
  | .nil => []
  | .cons h t => ',' :: (cVal h ++ cArrTail t)
def cObjTail : JObj → List Char
  | .nil => []
  | .cons k v t => ',' :: (quoteStr k ++ ':' :: cVal v ++ cObjTail t)
end

/-- `JSON.stringify(v)` as a string. -/
def stringifyCompact (v : Json) : String := ⟨cVal v⟩

/-! ## `JSON.parse`

A recursive-descent parser for the JSON fragment emitted by the serializers
above, modelling `JSON.parse` (numbers restricted to integers).  The parser
is structurally recursive on an explicit budget `f`; `parseJson` supplies a
budget that is always sufficient. -/

/-- JSON inter-token whitespace (the `ws` of the JSON grammar). -/
def jsonWsChar (c : Char) : Bool := c == ' ' || c == '\t' || c == '\n' || c == '\r'

/-- Skip JSON whitespace. -/
def skipWs (cs : List Char) : List Char := cs.dropWhile jsonWsChar

/-- Value of a hexadecimal digit character. -/
def hexVal (c : Char) : Option Nat :=
  if '0' ≤ c ∧ c ≤ '9' then some (c.toNat - 48)
  else if 'a' ≤ c ∧ c ≤ 'f' then some (c.toNat - 87)
  else if 'A' ≤ c ∧ c ≤ 'F' then some (c.toNat - 55)
  else none

/-- Value of a four-digit hexadecimal escape. -/
def hexVal4 (h1 h2 h3 h4 : Char) : Option Nat :=
  match hexVal h1, hexVal h2, hexVal h3, hexVal h4 with
  | some a, some b, some c, some d => some (((a * 16 + b) * 16 + c) * 16 + d)
  | _, _, _, _ => none

/-- Read a JSON string body (after the opening quote) up to the closing
quote, undoing the escapes of `escapeChar`; `acc` holds the characters read
so far, in reverse.  Unknown escapes and raw control characters are
rejected, as by `JSON.parse`. -/
def pStrAux (acc : List Char) : List Char → Option (String × List Char)
  | [] => none
  | '"' :: r => some (⟨acc.reverse⟩, r)
  | '\\' :: '"' :: r => pStrAux ('"' :: acc) r
  | '\\' :: '\\' :: r => pStrAux ('\\' :: acc) r
  | '\\' :: '/' :: r => pStrAux ('/' :: acc) r
  | '\\' :: 'b' :: r => pStrAux ('\x08' :: acc) r
  | '\\' :: 'f' :: r => pStrAux ('\x0c' :: acc) r
  | '\\' :: 'n' :: r => pStrAux ('\n' :: acc) r
  | '\\' :: 'r' :: r => pStrAux ('\r' :: acc) r
  | '\\' :: 't' :: r => pStrAux ('\t' :: acc) r
  | '\\' :: 'u' :: h1 :: h2 :: h3 :: h4 :: r =>
    match hexVal4 h1 h2 h3 h4 with
    | some n => pStrAux (Char.ofNat n :: acc) r
    | none => none
  | '\\' :: _ => none
  | c :: r => if c.toNat < 32 then none else pStrAux (c :: acc) r

/-- Numeric value of a list of decimal digit characters. -/
def digitsToNat (ds : List Char) : Nat := ds.foldl (fun a c => 10 * a + (c.toNat - 48)) 0

/-- The integer part of a JSON numeral (after the optional minus sign):
either a single `0`, or a nonzero digit followed by further digits — a
leading zero followed by another digit is a syntax error, exactly as for
`JSON.parse`.  Returns the digits and the remainder. -/
def pIntPart : List Char → Option (List Char × List Char)
  | [] => none
  | c :: r =>
    if c = '0' then
      if r.takeWhile isDigitChar = [] then some (['0'], r) else none
    else if isDigitChar c then some (c :: r.takeWhile isDigitChar, r.dropWhile isDigitChar)
    else none

/-- The optional fraction part of a JSON numeral: a dot must be followed by
at least one digit.  Returns the fraction digits (empty when absent) and
the remainder. -/
def pFracPart : List Char → Option (List Char × List Char)
  | [] => some ([], [])
  | c :: r =>
    if c = '.' then
      match r.takeWhile isDigitChar with
      | [] => none
      | ds => some (ds, r.dropWhile isDigitChar)
    else some ([], c :: r)

/-- At least one digit, as an exponent value. -/
def pExpDigits (r : List Char) : Option (Int × List Char) :=
  match r.takeWhile isDigitChar with
  | [] => none
  | ds => some ((digitsToNat ds : Int), r.dropWhile isDigitChar)

/-- An optionally signed exponent: `+`, `-` or no sign, then at least one
digit. -/
def pSignedExp : List Char → Option (Int × List Char)
  | '+' :: r2 => pExpDigits r2
  | '-' :: r2 =>
    (match pExpDigits r2 with
     | some (ex, r3) => some (-ex, r3)
     | none => none)
  | r2 => pExpDigits r2

/-- The optional exponent part of a JSON numeral: `e` or `E`, an optional
sign, then at least one digit.  Returns the exponent (zero when absent)
and the remainder. -/
def pExpPart : List Char → Option (Int × List Char)
  | [] => some (0, [])
  | c :: r =>
    if c = 'e' ∨ c = 'E' then pSignedExp r
    else some (0, c :: r)

/-- An unsigned JSON numeral — integer part, optional fraction, optional
exponent, with exactly the acceptance grammar of `JSON.parse` — valued as
the truncation toward zero of the denoted decimal (exact on
integer-valued numerals; the model declares numbers as integers). -/
def pNumBody (cs : List Char) : Option (Int × List Char) :=
  match pIntPart cs with
  | none => none
  | some (ids, r1) =>
    match pFracPart r1 with
    | none => none
    | some (fds, r2) =>
      match pExpPart r2 with
      | none => none
      | some (ex, r3) =>
        let digits := digitsToNat (ids ++ fds)
        some (match ex - (fds.length : Int) with
          | .ofNat k => ((digits * 10 ^ k : Nat) : Int)
          | .negSucc k => ((digits / 10 ^ (k + 1) : Nat) : Int), r3)

/-- A JSON numeral: optional minus sign, then `pNumBody`; the truncated
value of a negative numeral is the negation of its body's. -/
def pNumAt : List Char → Option (Json × List Char)
  | [] => none
  | c :: r =>
    if c = '-' then
      match pNumBody r with
      | some (n, r2) => some (.num (-n), r2)
      | none => none
    else
      match pNumBody (c :: r) with
      | some (n, r2) => some (.num n, r2)
      | none => none

/- Parse one JSON value (`pVal`); `pArrAt` / `pObjAt` parse an array / object
body after the opening bracket; `pArrRest` / `pObjRest` parse the rest of an
array / object after one element (a comma and a further element, or the
closing bracket). -/
mutual
def pVal : Nat → List Char → Option (Json × List Char)
  | 0, _ => none
  | f + 1, cs =>
    match skipWs cs with
    | [] => none
    | c :: r =>
      if isDigitChar c then pNumAt (c :: r)
      else
        match c :: r with
        | 'n' :: 'u' :: 'l' :: 'l' :: r2 => some (.null, r2)
        | 't' :: 'r' :: 'u' :: 'e' :: r2 => some (.bool true, r2)
        | 'f' :: 'a' :: 'l' :: 's' :: 'e' :: r2 => some (.bool false, r2)
        | '-' :: r2 => pNumAt ('-' :: r2)
        | '"' :: r2 =>
          match pStrAux [] r2 with
          | some (s, r3) => some (.str s, r3)
          | none => none
        | '[' :: r2 => pArrAt f r2
        | '\x7b' :: r2 => pObjAt f r2
        | _ => none
def pArrAt : Nat → List Char → Option (Json × List Char)
  | 0, _ => none
  | f + 1, r2 =>
    match skipWs r2 with
    | [] => none
    | c :: r3 =>
      if c = ']' then some (.arr .nil, r3)
      else
        match pVal f (c :: r3) with
        | some (v, r4) =>
          match pArrRest f r4 with
          | some (t, r5) => some (.arr (.cons v t), r5)
          | none => none
        | none => none
def pObjAt : Nat → List Char → Option (Json × List Char)
  | 0, _ => none
  | f + 1, r2 =>
    match skipWs r2 with
    | [] => none
    | c :: r3 =>
      if c = '\x7d' then some (.obj .nil, r3)
      else if c = '"' then
        match pStrAux [] r3 with
        | some (k, r4) =>
          match skipWs r4 with
          | [] => none
          | c2 :: r5 =>
            if c2 = ':' then
              match pVal f r5 with
              | some (v, r6) =>
                match pObjRest f r6 with
                | some (o, r7) => some (.obj (.cons k v o), r7)
                | none => none
              | none => none
            else none
        | none => none
      else none
def pArrRest : Nat → List Char → Option (JArr × List Char)
  | 0, _ => none
  | f + 1, cs =>
    match skipWs cs with
    | [] => none
    | c :: r =>
      if c = ']' then some (.nil, r)
      else if c = ',' then
        match pVal f r with
        | some (v, r2) =>
          match pArrRest f r2 with
          | some (t, r3) => some (.cons v t, r3)
          | none => none
        | none => none
      else none
def pObjRest : Nat → List Char → Option (JObj × List Char)
  | 0, _ => none
  | f + 1, cs =>
    match skipWs cs with
    | [] => none
    | c :: r =>
      if c = '\x7d' then some (.nil, r)
      else if c = ',' then
        match skipWs r with
        | [] => none
        | c2 :: r2 =>
          if c2 = '"' then
            match pStrAux [] r2 with
            | some (k, r3) =>
              match skipWs r3 with
              | [] => none
              | c3 :: r4 =>
                if c3 = ':' then
                  match pVal f r4 with
                  | some (v, r5) =>
                    match pObjRest f r5 with
                    | some (o, r6) => some (.cons k v o, r6)
                    | none => none
                  | none => none
                else none
            | none => none
          else none
      else none
end

/-- `JSON.parse`: parse a complete JSON document (one value surrounded by
optional whitespace); anything else is a syntax error, modelled as `none`.
The acceptance grammar — including the full number grammar with its
leading-zero rule, fraction and exponent — is that of `JSON.parse`; the
value attached to a numeral is its integer truncation (exact on the
integer-valued numerals the serializers emit, numbers being modelled as
integers). -/
def parseJson (s : String) : Option Json :=
  match pVal (s.length + 1) s.data with
  | some (v, rest) => if skipWs rest = [] then some v else none
  | none => none

/-- A character that can extend a JSON numeral to its left: a digit, the
fraction dot, or an exponent marker. -/
def numExt (c : Char) : Bool := isDigitChar c || c == '.' || c == 'e' || c == 'E'

/-- `numSafe rest` says `rest` cannot extend a numeral ending right before
it, which is the case after every separator emitted by the serializer. -/
def numSafe (cs : List Char) : Prop :=
  match cs with
  | [] => True
  | c :: _ => numExt c = false

/-! ## The model-response regular expressions

`selectServerScript` parses the model's selection response with the
JavaScript regular expression `path=(.*?),\s*name=(.*)` (first match,
leftmost start, lazy first group, greedy second group, `.` not matching line
terminators, `\s` matching whitespace including line terminators), and the
Gemini `processQuery` parses the argument-synthesis response with
`name=(.*?),\s*args=(\{.*\})`.  The functions below implement exactly these
two matchers. -/

/-- After the comma of `path=(.*?),\s*name=(.*)`: greedily skip `\s*`, then
require the literal `name=`; returns the remainder on success. -/
def afterCommaName (r : List Char) : Option (List Char) :=
  match r.dropWhile jsWhitespaceChar with
  | 'n' :: 'a' :: 'm' :: 'e' :: '=' :: r2 => some r2
  | _ => none

/-- The lazy scan of group 1 of `path=(.*?),\s*name=(.*)`: at each position
first try to complete the match (a comma, whitespace, `name=`, then group 2
greedy to the end of the line); otherwise let the lazy group absorb one more
non-line-terminator character. `acc` holds group 1 so far, reversed. -/
def pathNameLazy (acc : List Char) : List Char → Option (String × String)
  | [] => none
  | c :: r =>
    if c = ',' then
      match afterCommaName r with
      | some r2 => some (⟨acc.reverse⟩, ⟨r2.takeWhile (fun ch => !lineTermChar ch)⟩)
      | none => pathNameLazy (c :: acc) r
    else if lineTermChar c then none
    else pathNameLazy (c :: acc) r

/-- Anchored match of `path=(.*?),\s*name=(.*)` at the current position. -/
def pathNameAt : List Char → Option (String × String)
  | 'p' :: 'a' :: 't' :: 'h' :: '=' :: r => pathNameLazy [] r
  | _ => none

/-- Leftmost match of `path=(.*?),\s*name=(.*)`. -/
def searchPathName : List Char → Option (String × String)
  | [] => none
  | c :: r =>
    match pathNameAt (c :: r) with
    | some g => some g
    | none => searchPathName r

/-- `llmText.match(/path=(.*?),\s*name=(.*)/)`, returning the two capture
groups. -/
def matchPathName (s : String) : Option (String × String) := searchPathName s.data

/-- Match `(\{.*\})` at the current position: an opening brace, then the
greedy `.*` backtracking to the last closing brace on the same line. -/
def bracedGroup : List Char → Option (List Char)
  | '\x7b' :: r3 =>
    match (r3.takeWhile (fun ch => !lineTermChar ch)).reverse.dropWhile
        (fun ch => ch != '\x7d') with
    | [] => none
    | rev => some ('\x7b' :: rev.reverse)
  | _ => none

/-- After the comma of `name=(.*?),\s*args=(\{.*\})`: skip `\s*`, require
`args=`, then the braced group. -/
def afterCommaArgs (r : List Char) : Option (List Char) :=
  match r.dropWhile jsWhitespaceChar with
  | 'a' :: 'r' :: 'g' :: 's' :: '=' :: r2 => bracedGroup r2
  | _ => none

/-- The lazy scan of group 1 of `name=(.*?),\s*args=(\{.*\})`. -/
def nameArgsLazy (acc : List Char) : List Char → Option (String × String)
  | [] => none
  | c :: r =>
    if c = ',' then
      match afterCommaArgs r with
      | some g2 => some (⟨acc.reverse⟩, ⟨g2⟩)
      | none => nameArgsLazy (c :: acc) r
    else if lineTermChar c then none
    else nameArgsLazy (c :: acc) r

/-- Anchored match of `name=(.*?),\s*args=(\{.*\})`. -/
def nameArgsAt : List Char → Option (String × String)
  | 'n' :: 'a' :: 'm' :: 'e' :: '=' :: r => nameArgsLazy [] r
  | _ => none

/-- Leftmost match of `name=(.*?),\s*args=(\{.*\})`. -/
def searchNameArgs : List Char → Option (String × String)
  | [] => none
  | c :: r =>
    match nameArgsAt (c :: r) with
    | some g => some g
    | none => searchNameArgs r

/-- `llmText.match(/name=(.*?),\s*args=(\{.*\})/)`. -/
def matchNameArgs (s : String) : Option (String × String) := searchNameArgs s.data

/-! ## Data model: tools, backends, discovery -/

/-- A tool advertised by a backend (`{name, description, input_schema}` as
built by `getServerTools`). -/
structure Tool where
  name : String
  description : String
  input_schema : Json

/-- One entry of `allServerInfos`: a successfully discovered backend.  `cid`
identifies the underlying connection (the candidate's index in the
configured list). -/
structure ServerInfo where
  cid : Nat
  path : String
  tools : List Tool

/-- The externally determined fate of one candidate backend during
discovery: the spawn/connect can fail, `listTools` can fail after a
successful connect, or discovery succeeds with an advertised tool list. -/
inductive DiscoveryOutcome where
  | spawnFail
  | listToolsFail
  | ok (tools : List Tool)

/-- The failure modes of `selectServerScript` (each `throw new Error(...)`
site of the source). -/
inductive SelErr where
  | noBackendAvailable
  | selectionParseError (raw : String)
  | unknownBackendSelected (path : String)
  | unknownToolSelected (name : String)
deriving DecidableEq

/-- The aggregation `allTools = allServerInfos.flatMap(info =>
info.tools.map(tool => ({path: info.path, ...tool})))` of
`selectServerScript`, as (backend id, tool) pairs. -/
def allToolsOf (infos : List ServerInfo) : List (String × Tool) :=
  infos.flatMap fun info => info.tools.map fun t => (info.path, t)

/-- The parse-and-validate stage of `selectServerScript`: match the model
response against `path=(.*?),\s*name=(.*)`, trim both groups, resolve the
path among the discovered backends and the tool name within the resolved
backend (`find` in source order). -/
def selectFromResponse (infos : List ServerInfo) (llmText : String) :
    Except SelErr (ServerInfo × Tool) :=
  match matchPathName llmText with
  | none => .error (.selectionParseError llmText)
  | some (g1, g2) =>
    let selectedPath := jsTrim g1
    let selectedName := jsTrim g2
    match infos.find? fun info => info.path == selectedPath with
    | none => .error (.unknownBackendSelected selectedPath)
    | some selectedServer =>
      match selectedServer.tools.find? fun t => t.name == selectedName with
      | none => .error (.unknownToolSelected selectedName)
      | some selectedTool => .ok (selectedServer, selectedTool)

/-- The discovery loop of `selectServerScript`: call `getServerTools` on
each candidate in order, skipping failures.  Returns `allServerInfos` and
the list of connection ids opened and still open: a candidate that fails at
spawn opens nothing, one that fails at `listTools` has connected (its
connection stays open — the catch block closes nothing), and a successful
candidate's connection is open and recorded in its `ServerInfo`. -/
def discoverAux : Nat → List (String × DiscoveryOutcome) → List ServerInfo × List Nat
  | _, [] => ([], [])
  | i, (p, o) :: rest =>
    let res := discoverAux (i + 1) rest
    match o with
    | .spawnFail => res
    | .listToolsFail => (res.1, i :: res.2)
    | .ok ts => (⟨i, p, ts⟩ :: res.1, i :: res.2)

/-- `selectServerScript` of `index_anthoropic_api.ts` / `index_gemini_api.ts`
(lines 61–118): discover all candidates, fail with `NoBackendAvailable` if
none succeeded, ask the model (response `llmText`), parse and validate, then
close every discovered connection whose path differs from the selected path.
Returns the outcome together with the connection ids still open when the
function returns (normally or by throw).  The throws happen before the
close loop, so on every error path all discovery-opened connections remain
open. -/
def selectServerScript (cands : List (String × DiscoveryOutcome)) (llmText : String) :
    Except SelErr (ServerInfo × Tool) × List Nat :=
  let res := discoverAux 0 cands
  let infos := res.1
  let opens := res.2
  if infos.length = 0 then (.error .noBackendAvailable, opens)
  else
    match selectFromResponse infos llmText with
    | .error e => (.error e, opens)
    | .ok (info, tool) =>
      let closed := (infos.filter fun i => i.path != info.path).map (·.cid)
      (.ok (info, tool), opens.filter fun c => !(closed.contains c))

/-- The configured candidate list `SERVER_CANDIDATES` of the source. -/
def SERVER_CANDIDATES : List String :=
  ["/Users/iida/Desktop/custom-mcp/link-ag-achievement/dist/index.js",
   "/Users/iida/Desktop/mcp/weather-nodejs/build/index.js"]

/-! ## The Anthropic-variant `MCPClient.processQuery` (native tool calling) -/

/-- One content block of a model response: plain text or a structured
tool-call intent. -/
inductive ContentBlock where
  | text (s : String)
  | toolUse (name : String) (input : Json)

/-- The loop over `response.content` of `MCPClient.processQuery`
(`index_anthoropic_api.ts` lines 152–186): text blocks are pushed onto
`finalText`; a `tool_use` block first invokes `callTool` (an invocation
error propagates immediately), then pushes the `[Calling tool …]` line and
the text of the first block of a follow-up model call.  `followUp k` is the
external model's response to the `k`-th follow-up call (a follow-up whose
first block is not text contributes the empty string); the `(name, args)`
pairs of all `callTool` invocations attempted are returned alongside. -/
def processQueryGo (callTool : String → Json → Except Unit Json)
    (followUp : Nat → List ContentBlock) :
    List ContentBlock → Nat → List String → List (String × Json) →
    Except Unit String × List (String × Json)
  | [], _, acc, calls => (.ok (String.intercalate "\n" acc.reverse), calls.reverse)
  | .text s :: rest, k, acc, calls => processQueryGo callTool followUp rest k (s :: acc) calls
  | .toolUse nm args :: rest, k, acc, calls =>
    match callTool nm args with
    | .error _ => (.error (), ((nm, args) :: calls).reverse)
    | .ok _res =>
      let entry := "[Calling tool " ++ nm ++ " with args " ++ stringifyCompact args ++ "]"
      let fuText :=
        match (followUp k).head? with
        | some (.text s) => s
        | _ => ""
      processQueryGo callTool followUp rest (k + 1) (fuText :: entry :: acc) ((nm, args) :: calls)

/-- `MCPClient.processQuery` over the model's first response `blocks`:
returns the joined `finalText` (or an invocation error) and the backend
calls attempted. -/
def processQuery (blocks : List ContentBlock) (callTool : String → Json → Except Unit Json)
    (followUp : Nat → List ContentBlock) : Except Unit String × List (String × Json) :=
  processQueryGo callTool followUp blocks 0 [] []

/-! ## The Gemini-variant invocation: argument synthesis and normalization -/

/-- The two ways the argument-parsing stage of the Gemini
`MCPClient.processQuery` can fail: the response does not match
`name=(.*?),\s*args=(\{.*\})` (the thrown `Error` — argument-synthesis
failure), or it matches but `JSON.parse(match[2])` throws a `SyntaxError`,
a different exception. -/
inductive GeminiQErr where
  | argumentSynthesisError (raw : String)
  | jsonSyntaxError (blob : String)
deriving DecidableEq

/-- Lines 143–147 of `index_gemini_api.ts`: match the response, trim the
tool name, `JSON.parse` the argument blob. -/
def parseToolInstruction (llmText : String) : Except GeminiQErr (String × Json) :=
  match matchNameArgs llmText with
  | none => .error (.argumentSynthesisError llmText)
  | some (g1, g2) =>
    match parseJson g2 with
    | some j => .ok (jsTrim g1, j)
    | none => .error (.jsonSyntaxError g2)

/-- Last-wins property lookup on a JSON object (JavaScript object
semantics: a later duplicate key overrides an earlier one). -/
def objGet : JObj → String → Option Json
  | .nil, _ => none
  | .cons k v t, key =>
    match objGet t key with
    | some r => some r
    | none => if k = key then some v else none

/-- The filter `item.type === "text" && typeof item.text === "string"` of
the normalization step, returning the item's text when it passes. -/
def itemText : Json → Option String
  | .obj o =>
    match objGet o "type", objGet o "text" with
    | some (.str ty), some (.str s) => if ty = "text" then some s else none
    | _, _ => none
  | _ => none

/-- The texts of all text-typed items of an invocation-result array, in
order. -/
def collectTexts : JArr → List String
  | .nil => []
  | .cons h t =>
    match itemText h with
    | some s => s :: collectTexts t
    | none => collectTexts t

/-- Lines 173–182 of `index_gemini_api.ts`: normalize the invocation result
`content`.  An array: join the texts of its text-typed items with blank
lines, falling back to `JSON.stringify(content, null, 2)` when that join is
the empty string (`texts || JSON.stringify(...)`); any other object
(including `null`, for which `typeof null === "object"`): pretty-print; a
string (or number or boolean): pass through unchanged. -/
def normalizeContent : Json → Json
  | .arr items =>
    let texts := String.intercalate "\n\n" (collectTexts items)
    if texts = "" then .str (stringifyPretty (.arr items)) else .str texts
  | .obj o => .str (stringifyPretty (.obj o))
  | .null => .str (stringifyPretty .null)
  | other => other

/-! ## Backend spawn: interpreter choice by file extension -/

/-- `String.prototype.endsWith`. -/
def jsEndsWith (s suffix : String) : Bool :=
  List.isPrefixOf suffix.data.reverse s.data.reverse

/-- The spawn-command choice of `getServerTools`
(`index_gemini_api.ts` lines 39–45, identically in
`index_anthoropic_api.ts`): `isJs` is computed but unused; a `.py` locator
launches the Python interpreter (platform dependent), anything else —
including an unrecognized extension — launches the JavaScript interpreter
(`process.execPath`).  There is no validation step. -/
def getServerToolsCommand (platform execPath serverScriptPath : String) : String :=
  let isPy := jsEndsWith serverScriptPath ".py"
  if isPy then (if platform = "win32" then "python" else "python3") else execPath

/-- The spawn-command choice of `MCPClient.connectToServer` of the
single-backend variant (`src/unnamed/part_000` lines 33–44): a locator that
is neither `.js` nor `.py` fails with the validation error before any
process is started. -/
def connectToServerCommand (platform execPath serverScriptPath : String) :
    Except String String :=
  let isJs := jsEndsWith serverScriptPath ".js"
  let isPy := jsEndsWith serverScriptPath ".py"
  if !isJs && !isPy then .error "Server script must be a .js or .py file"
  else .ok (if isPy then (if platform = "win32" then "python" else "python3") else execPath)

/-! ## The session cycle (`main` of `index_anthoropic_api.ts`, lines
221–257; `main` of `index_gemini_api.ts` is structurally identical) -/

/-- The external world of one query cycle: the model's selection response,
the user's confirmation input, the model's invocation response, the
backend-call oracle and the follow-up model responses. -/
structure CycleWorld where
  selText : String
  confirmText : String
  blocks : List ContentBlock
  callTool : String → Json → Except Unit Json
  followUp : Nat → List ContentBlock

/-- How one iteration of the `main` loop ends: a caught selection error
(`continue`), a declined confirmation (`continue`), a completed answer, or
an invocation/synthesis error (which, having no catch around
`processQuery`, escapes `main` after the `finally` cleanup). -/
inductive CycleExit where
  | selectionFailed (e : SelErr)
  | declined
  | completed (answer : String)
  | invocationFailed

/-- One iteration of the `main` loop: select (on error: report and
`continue` — the connections opened by the selector stay as they were),
confirm (`confirm.trim().toLowerCase() !== "ok"` declines and `continue`s
— nothing is closed), then `processQuery` under `try … finally
cleanup()` (the cleanup closes the selected backend's connection on both
the success and the error path).  Returns the exit kind, the connection ids
still open when control leaves the iteration, and the backend calls
attempted. -/
def runCycle (cands : List (String × DiscoveryOutcome)) (w : CycleWorld) :
    CycleExit × List Nat × List (String × Json) :=
  match selectServerScript cands w.selText with
  | (.error e, opens) => (.selectionFailed e, opens, [])
  | (.ok (info, _tool), opens) =>
    if asciiLower (jsTrim w.confirmText) = "ok" then
      match processQuery w.blocks w.callTool w.followUp with
      | (.ok ans, calls) => (.completed ans, opens.filter fun c => c != info.cid, calls)
      | (.error _, calls) => (.invocationFailed, opens.filter fun c => c != info.cid, calls)
    else (.declined, opens, [])

/-- The weather tool of the spec's end-to-end scenario, used as a concrete
witness input. -/
def weatherTool : Tool :=
  ⟨"get_weather", "returns current weather",
    .obj (.cons "location" (.obj (.cons "type" (.str "string") .nil)) .nil)⟩

/-! ## Lemmas: strings, whitespace, digits, escapes -/

theorem stringMk_data : ∀ s : String, (⟨s.data⟩ : String) = s
  | ⟨_⟩ => rfl

theorem skipWs_cons_of_ws {c : Char} (h : jsonWsChar c = true) (cs : List Char) :
    skipWs (c :: cs) = skipWs cs := by
  simp [skipWs, List.dropWhile, h]

theorem skipWs_cons_of_not {c : Char} (h : jsonWsChar c = false) (cs : List Char) :
    skipWs (c :: cs) = c :: cs := by
  simp [skipWs, List.dropWhile, h]

theorem skipWs_replicate_space (n : Nat) (cs : List Char) :
    skipWs (List.replicate n ' ' ++ cs) = skipWs cs := by
  induction n with
  | zero => simp
  | succ n ih =>
    rw [List.replicate_succ, List.cons_append, skipWs_cons_of_ws (by decide)]
    exact ih

theorem skipWs_ind (d : Nat) (cs : List Char) : skipWs (ind d ++ cs) = skipWs cs :=
  skipWs_replicate_space _ _

theorem takeWhile_append_of_all {p : Char → Bool} :
    ∀ (xs rest : List Char), (∀ c ∈ xs, p c = true) →
      (xs ++ rest).takeWhile p = xs ++ rest.takeWhile p
  | [], _, _ => by simp
  | x :: xs, rest, h => by
    have hx : p x = true := h x (by simp)
    simp only [List.cons_append, List.takeWhile_cons, hx, if_true]
    rw [takeWhile_append_of_all xs rest fun c hc => h c (by simp [hc])]

theorem dropWhile_append_of_all {p : Char → Bool} :
    ∀ (xs rest : List Char), (∀ c ∈ xs, p c = true) →
      (xs ++ rest).dropWhile p = rest.dropWhile p
  | [], _, _ => by simp
  | x :: xs, rest, h => by
    have hx : p x = true := h x (by simp)
    simp only [List.cons_append, List.dropWhile_cons, hx]
    exact dropWhile_append_of_all xs rest fun c hc => h c (by simp [hc])

theorem dropWhile_eq_self_of_takeWhile_nil {p : Char → Bool} :
    ∀ {cs : List Char}, cs.takeWhile p = [] → cs.dropWhile p = cs
  | [], _ => rfl
  | c :: cs, h => by
    by_cases hc : p c = true
    · simp [List.takeWhile_cons, hc] at h
    · have hc2 : p c = false := by revert hc; cases p c <;> simp
      simp [List.dropWhile_cons, hc2]

theorem numSafe_nil : numSafe [] := trivial

theorem numSafe_cons {c : Char} (h : numExt c = false) (cs : List Char) :
    numSafe (c :: cs) := h

theorem numSafe_not_digit {c : Char} {cs : List Char} (h : numSafe (c :: cs)) :
    isDigitChar c = false := by
  have h2 : numExt c = false := h
  simp only [numExt, Bool.or_eq_false_iff] at h2
  exact h2.1.1.1

theorem numSafe_takeWhile_digits {cs : List Char} (h : numSafe cs) :
    cs.takeWhile isDigitChar = [] := by
  cases cs with
  | nil => rfl
  | cons c cs => simp [List.takeWhile_cons, numSafe_not_digit h]

theorem numSafe_ne_dot {c : Char} {cs : List Char} (h : numSafe (c :: cs)) : ¬(c = '.') := by
  have h2 : numExt c = false := h
  simp only [numExt, Bool.or_eq_false_iff, beq_eq_false_iff_ne] at h2
  exact h2.1.1.2

theorem numSafe_ne_exp {c : Char} {cs : List Char} (h : numSafe (c :: cs)) :
    ¬(c = 'e' ∨ c = 'E') := by
  have h2 : numExt c = false := h
  simp only [numExt, Bool.or_eq_false_iff, beq_eq_false_iff_ne] at h2
  rintro (rfl | rfl)
  · exact h2.1.2 rfl
  · exact h2.2 rfl

theorem digitChar_toNat : ∀ k, k < 10 → (digitChar k).toNat = 48 + k := by decide

theorem isDigit_digitChar : ∀ k, k < 10 → isDigitChar (digitChar k) = true := by decide

theorem ws_not_digit {c : Char} (h : jsonWsChar c = true) : isDigitChar c = false := by
  simp only [jsonWsChar, Bool.or_eq_true, beq_iff_eq] at h
  rcases h with ((rfl | rfl) | rfl) | rfl <;> decide

theorem digit_not_ws {c : Char} (h : isDigitChar c = true) : jsonWsChar c = false := by
  cases hw : jsonWsChar c with
  | false => rfl
  | true => rw [ws_not_digit hw] at h; exact absurd h (by decide)

theorem digit_ne_minus {c : Char} (h : isDigitChar c = true) : ¬(c = '-') := by
  intro he; subst he; exact absurd h (by decide)

theorem digit_ne_rbracket {c : Char} (h : isDigitChar c = true) : ¬(c = ']') := by
  intro he; subst he; exact absurd h (by decide)

theorem digit_ne_rbrace {c : Char} (h : isDigitChar c = true) : ¬(c = '\x7d') := by
  intro he; subst he; exact absurd h (by decide)

theorem natCharsAux_spec :
    ∀ n f, n < f →
      natCharsAux f n ≠ [] ∧ (∀ c ∈ natCharsAux f n, isDigitChar c = true) ∧
        ∀ a : Nat, (natCharsAux f n).foldl (fun b c => 10 * b + (c.toNat - 48)) a =
          a * 10 ^ (natCharsAux f n).length + n := by
  intro n
  induction n using Nat.strong_induction_on with
  | _ n ih =>
    intro f hf
    match f, hf with
    | g + 1, hf =>
      by_cases hn : n < 10
      · refine ⟨by simp [natCharsAux, hn], ?_, ?_⟩
        · intro c hc
          simp only [natCharsAux, if_pos hn, List.mem_singleton] at hc
          exact hc ▸ isDigit_digitChar n hn
        · intro a
          simp [natCharsAux, if_pos hn, digitChar_toNat n hn]
          ring
      · have h10 : 10 ≤ n := Nat.le_of_not_lt hn
        have hdiv_lt : n / 10 < n := Nat.div_lt_self (by omega) (by omega)
        have hdiv_g : n / 10 < g := by
          have : n ≤ g := Nat.lt_succ_iff.mp hf
          omega
        obtain ⟨hne, hdig, hfold⟩ := ih (n / 10) hdiv_lt g hdiv_g
        have hmod : n % 10 < 10 := Nat.mod_lt _ (by omega)
        refine ⟨by simp [natCharsAux, if_neg hn], ?_, ?_⟩
        · intro c hc
          simp only [natCharsAux, if_neg hn, List.mem_append, List.mem_singleton] at hc
          rcases hc with hc | rfl
          · exact hdig c hc
          · exact isDigit_digitChar _ hmod
        · intro a
          simp only [natCharsAux, if_neg hn, List.foldl_append, List.length_append,
            List.foldl_cons, List.foldl_nil, List.length_cons, List.length_nil]
          rw [hfold a, digitChar_toNat _ hmod]
          have hdm : 10 * (n / 10) + n % 10 = n := by
            have := Nat.div_add_mod n 10
            omega
          have : (48 + n % 10 - 48) = n % 10 := by omega
          rw [this, pow_succ]
          ring_nf
          omega

theorem natChars_ne_nil (n : Nat) : natChars n ≠ [] :=
  (natCharsAux_spec n (n + 1) (Nat.lt_succ_self n)).1

theorem natChars_digits (n : Nat) : ∀ c ∈ natChars n, isDigitChar c = true :=
  (natCharsAux_spec n (n + 1) (Nat.lt_succ_self n)).2.1

theorem digitsToNat_natChars (n : Nat) : digitsToNat (natChars n) = n := by
  have := ((natCharsAux_spec n (n + 1) (Nat.lt_succ_self n)).2.2) 0
  simpa [digitsToNat, natChars] using this

theorem natCharsAux_head_ne_zero :
    ∀ n f, n < f → 1 ≤ n → ∀ c cs, natCharsAux f n = c :: cs → ¬(c = '0') := by
  intro n
  induction n using Nat.strong_induction_on with
  | _ n ih =>
    intro f hf hn c cs hc
    match f, hf with
    | g + 1, hf =>
      by_cases h10 : n < 10
      · rw [natCharsAux, if_pos h10] at hc
        obtain ⟨rfl, -⟩ : c = digitChar n ∧ cs = [] := by
          cases hc; exact ⟨rfl, rfl⟩
        intro h0
        have := congrArg Char.toNat h0
        rw [digitChar_toNat n h10] at this
        simp at this
        omega
      · rw [natCharsAux, if_neg h10] at hc
        have hdiv_lt : n / 10 < n := Nat.div_lt_self (by omega) (by omega)
        have hdiv_g : n / 10 < g := by
          have : n ≤ g := Nat.lt_succ_iff.mp hf
          omega
        obtain ⟨c', cs', hc'⟩ : ∃ c' cs', natCharsAux g (n / 10) = c' :: cs' := by
          cases h : natCharsAux g (n / 10) with
          | nil => exact absurd h (natCharsAux_spec (n / 10) g hdiv_g).1
          | cons c' cs' => exact ⟨c', cs', rfl⟩
        rw [hc', List.cons_append] at hc
        obtain ⟨heq, -⟩ : c = c' ∧ cs = cs' ++ [digitChar (n % 10)] := by
          cases hc; exact ⟨rfl, rfl⟩
        subst heq
        exact ih (n / 10) hdiv_lt g hdiv_g (by omega) c cs' hc'

theorem natChars_head_ne_zero (n : Nat) (hn : 1 ≤ n) {c : Char} {cs : List Char}
    (hc : natChars n = c :: cs) : ¬(c = '0') :=
  natCharsAux_head_ne_zero n (n + 1) (Nat.lt_succ_self n) hn c cs hc

theorem pIntPart_natChars (n : Nat) {rest : List Char} (hr : numSafe rest) :
    pIntPart (natChars n ++ rest) = some (natChars n, rest) := by
  by_cases hn : n = 0
  · subst hn
    have h0 : natChars 0 = ['0'] := rfl
    rw [h0, List.singleton_append, pIntPart, if_pos rfl,
      if_pos (numSafe_takeWhile_digits hr)]
  · obtain ⟨c, cs, hc⟩ : ∃ c cs, natChars n = c :: cs := by
      cases h : natChars n with
      | nil => exact absurd h (natChars_ne_nil n)
      | cons c cs => exact ⟨c, cs, rfl⟩
    have hdc : isDigitChar c = true := natChars_digits n c (by rw [hc]; simp)
    have hall : ∀ x ∈ cs, isDigitChar x = true := fun x hx =>
      natChars_digits n x (by rw [hc]; simp [hx])
    rw [hc, List.cons_append, pIntPart,
      if_neg (natChars_head_ne_zero n (by omega) hc), if_pos hdc,
      takeWhile_append_of_all _ _ hall, dropWhile_append_of_all _ _ hall,
      numSafe_takeWhile_digits hr, dropWhile_eq_self_of_takeWhile_nil
        (numSafe_takeWhile_digits hr), List.append_nil]

theorem pFracPart_safe {rest : List Char} (hr : numSafe rest) :
    pFracPart rest = some ([], rest) := by
  cases rest with
  | nil => rfl
  | cons c r => rw [pFracPart, if_neg (numSafe_ne_dot hr)]

theorem pExpPart_safe {rest : List Char} (hr : numSafe rest) :
    pExpPart rest = some (0, rest) := by
  cases rest with
  | nil => rfl
  | cons c r => rw [pExpPart, if_neg (numSafe_ne_exp hr)]

theorem pNumBody_natChars (n : Nat) {rest : List Char} (hr : numSafe rest) :
    pNumBody (natChars n ++ rest) = some ((n : Int), rest) := by
  simp only [pNumBody, pIntPart_natChars n hr, pFracPart_safe hr, pExpPart_safe hr]
  show some (((digitsToNat (natChars n ++ []) * 10 ^ 0 : Nat) : Int), rest) =
    some ((n : Int), rest)
  simp [digitsToNat_natChars]

theorem pNumAt_natChars (n : Nat) {rest : List Char} (hr : numSafe rest) :
    pNumAt (natChars n ++ rest) = some (.num (n : Int), rest) := by
  obtain ⟨c, cs, hc⟩ : ∃ c cs, natChars n = c :: cs := by
    cases h : natChars n with
    | nil => exact absurd h (natChars_ne_nil n)
    | cons c cs => exact ⟨c, cs, rfl⟩
  have hdc : isDigitChar c = true := natChars_digits n c (by rw [hc]; simp)
  rw [hc, List.cons_append, pNumAt, if_neg (digit_ne_minus hdc), ← List.cons_append, ← hc,
    pNumBody_natChars n hr]

theorem pNumAt_neg (m : Nat) {rest : List Char} (hr : numSafe rest) :
    pNumAt ('-' :: (natChars (m + 1) ++ rest)) = some (.num (Int.negSucc m), rest) := by
  rw [pNumAt, if_pos rfl, pNumBody_natChars (m + 1) hr]
  have h : (-((m + 1 : Nat) : Int)) = Int.negSucc m := by
    rw [Int.negSucc_eq]; push_cast; ring
  show some (Json.num (-((m + 1 : Nat) : Int)), rest) = _
  rw [h]

theorem hexVal_hexDigitChar : ∀ x, x < 16 → hexVal (hexDigitChar x) = some x := by decide

set_option maxHeartbeats 2000000 in
theorem pStrAux_escapeChar_step (c : Char) (acc X : List Char) :
    pStrAux acc (escapeChar c ++ X) = pStrAux (c :: acc) X := by
  by_cases hctl : c.toNat < 32
  · obtain ⟨k, hk, rfl⟩ : ∃ k, k < 32 ∧ c = Char.ofNat k :=
      ⟨c.toNat, hctl, (Char.ofNat_toNat c).symm⟩
    interval_cases k <;> rfl
  · by_cases h1 : c = '"'
    · subst h1; rfl
    · by_cases h2 : c = '\\'
      · subst h2; rfl
      · have h3 : ¬(c = '\x08') := fun he => hctl (by subst he; decide)
        have h4 : ¬(c = '\x0c') := fun he => hctl (by subst he; decide)
        have h5 : ¬(c = '\n') := fun he => hctl (by subst he; decide)
        have h6 : ¬(c = '\r') := fun he => hctl (by subst he; decide)
        have h7 : ¬(c = '\t') := fun he => hctl (by subst he; decide)
        rw [escapeChar, if_neg h1, if_neg h2, if_neg h3, if_neg h4, if_neg h5, if_neg h6,
          if_neg h7, if_neg hctl, List.singleton_append, pStrAux, if_neg hctl]
        all_goals intros
        all_goals first
          | exact h1 (by assumption)
          | exact h2 (by assumption)

theorem pStrAux_escape :
    ∀ (cs acc rest : List Char),
      pStrAux acc (escapeList cs ++ '"' :: rest) = some (⟨acc.reverse ++ cs⟩, rest)
  | [], acc, rest => by
    show some ((⟨acc.reverse⟩ : String), rest) = _
    simp
  | c :: cs, acc, rest => by
    rw [escapeList, List.append_assoc, pStrAux_escapeChar_step,
      pStrAux_escape cs (c :: acc) rest]
    simp

theorem pStr_quote (s : String) (rest : List Char) :
    pStrAux [] (escapeList s.data ++ '"' :: rest) = some (s, rest) := by
  rw [pStrAux_escape]
  simp [stringMk_data]

theorem jsize_pos : ∀ v : Json, 1 ≤ jsize v := by
  intro v
  cases v <;> simp [jsize] <;> omega

theorem pVal_null (g : Nat) (rest : List Char) :
    pVal (g + 1) ('n' :: 'u' :: 'l' :: 'l' :: rest) = some (.null, rest) := rfl

theorem pVal_true (g : Nat) (rest : List Char) :
    pVal (g + 1) ('t' :: 'r' :: 'u' :: 'e' :: rest) = some (.bool true, rest) := rfl

theorem pVal_false (g : Nat) (rest : List Char) :
    pVal (g + 1) ('f' :: 'a' :: 'l' :: 's' :: 'e' :: rest) = some (.bool false, rest) := rfl

theorem pVal_minus (g : Nat) (rest : List Char) :
    pVal (g + 1) ('-' :: rest) = pNumAt ('-' :: rest) := rfl

theorem pVal_quote (g : Nat) (rest : List Char) :
    pVal (g + 1) ('"' :: rest) =
      match pStrAux [] rest with
      | some (s, r3) => some (.str s, r3)
      | none => none := rfl

theorem pVal_lbrack (g : Nat) (rest : List Char) :
    pVal (g + 1) ('[' :: rest) = pArrAt g rest := rfl

theorem pVal_lbrace (g : Nat) (rest : List Char) :
    pVal (g + 1) ('\x7b' :: rest) = pObjAt g rest := rfl

theorem pVal_digit {c : Char} (hc : isDigitChar c = true) (g : Nat) (r : List Char) :
    pVal (g + 1) (c :: r) = pNumAt (c :: r) := by
  simp only [pVal]
  rw [skipWs_cons_of_not (digit_not_ws hc)]
  simp [hc]

theorem pVal_skipWs_congr {cs₁ cs₂ : List Char} (h : skipWs cs₁ = skipWs cs₂) :
    ∀ f, pVal f cs₁ = pVal f cs₂ := by
  intro f
  match f with
  | 0 => rfl
  | g + 1 => simp only [pVal, h]

theorem sVal_shape : ∀ (v : Json) (d : Nat),
    ∃ c cs, sVal v d = c :: cs ∧ jsonWsChar c = false ∧ ¬(c = ']') := by
  intro v d
  cases v with
  | null => exact ⟨'n', _, rfl, by decide, by decide⟩
  | bool b => cases b with
    | true => exact ⟨'t', _, rfl, by decide, by decide⟩
    | false => exact ⟨'f', _, rfl, by decide, by decide⟩
  | num i => cases i with
    | ofNat n =>
      obtain ⟨c, cs, hc⟩ : ∃ c cs, natChars n = c :: cs := by
        cases h : natChars n with
        | nil => exact absurd h (natChars_ne_nil n)
        | cons c cs => exact ⟨c, cs, rfl⟩
      have hd : isDigitChar c = true := natChars_digits n c (by rw [hc]; simp)
      exact ⟨c, cs, hc, digit_not_ws hd, digit_ne_rbracket hd⟩
    | negSucc m => exact ⟨'-', _, rfl, by decide, by decide⟩
  | str s => exact ⟨'"', _, rfl, by decide, by decide⟩
  | arr a => cases a with
    | nil => exact ⟨'[', _, rfl, by decide, by decide⟩
    | cons h t => exact ⟨'[', _, rfl, by decide, by decide⟩
  | obj o => cases o with
    | nil => exact ⟨'\x7b', _, rfl, by decide, by decide⟩
    | cons k v t => exact ⟨'\x7b', _, rfl, by decide, by decide⟩

theorem numSafe_sArrTail (t : JArr) (d : Nat) (X : List Char) :
    numSafe (sArrTail t d ++ '\n' :: X) := by
  cases t with
  | nil => exact numSafe_cons (by decide) _
  | cons h t => rw [sArrTail, List.cons_append]; exact numSafe_cons (by decide) _

theorem numSafe_sObjTail (t : JObj) (d : Nat) (X : List Char) :
    numSafe (sObjTail t d ++ '\n' :: X) := by
  cases t with
  | nil => exact numSafe_cons (by decide) _
  | cons k v t => rw [sObjTail, List.cons_append]; exact numSafe_cons (by decide) _

/- The serializer/parser round trip: parsing the pretty-printed form of a
value, followed by any suffix that cannot extend a number, yields exactly
that value and the suffix. -/
mutual
theorem rtVal : ∀ (v : Json) (d f : Nat) (rest : List Char), jsize v ≤ f → numSafe rest →
    pVal f (sVal v d ++ rest) = some (v, rest)
  | .null, d, f, rest, hf, _ => by
    obtain ⟨g, rfl⟩ : ∃ g, f = g + 1 := ⟨f - 1, by simp [jsize] at hf; omega⟩
    exact pVal_null g rest
  | .bool true, d, f, rest, hf, _ => by
    obtain ⟨g, rfl⟩ : ∃ g, f = g + 1 := ⟨f - 1, by simp [jsize] at hf; omega⟩
    exact pVal_true g rest
  | .bool false, d, f, rest, hf, _ => by
    obtain ⟨g, rfl⟩ : ∃ g, f = g + 1 := ⟨f - 1, by simp [jsize] at hf; omega⟩
    exact pVal_false g rest
  | .num (.ofNat n), d, f, rest, hf, hr => by
    obtain ⟨g, rfl⟩ : ∃ g, f = g + 1 := ⟨f - 1, by simp [jsize] at hf; omega⟩
    have hs : sVal (.num (.ofNat n)) d = natChars n := rfl
    rw [hs]
    obtain ⟨c, cs, hc⟩ : ∃ c cs, natChars n = c :: cs := by
      cases h : natChars n with
      | nil => exact absurd h (natChars_ne_nil n)
      | cons c cs => exact ⟨c, cs, rfl⟩
    have hd : isDigitChar c = true := natChars_digits n c (by rw [hc]; simp)
    rw [hc, List.cons_append, pVal_digit hd, ← List.cons_append, ← hc, pNumAt_natChars n hr]
    rfl
  | .num (.negSucc m), d, f, rest, hf, hr => by
    obtain ⟨g, rfl⟩ : ∃ g, f = g + 1 := ⟨f - 1, by simp [jsize] at hf; omega⟩
    have hs : sVal (.num (.negSucc m)) d ++ rest = '-' :: (natChars (m + 1) ++ rest) := by
      simp [sVal, intChars]
    rw [hs, pVal_minus, pNumAt_neg m hr]
  | .str s, d, f, rest, hf, _ => by
    obtain ⟨g, rfl⟩ : ∃ g, f = g + 1 := ⟨f - 1, by simp [jsize] at hf; omega⟩
    have hs : sVal (.str s) d ++ rest = '"' :: (escapeList s.data ++ '"' :: rest) := by
      simp [sVal, quoteStr]
    rw [hs, pVal_quote, pStr_quote]
  | .arr .nil, d, f, rest, hf, _ => by
    obtain ⟨g, rfl⟩ : ∃ g, f = g + 1 := ⟨f - 1, by simp [jsize, asize] at hf; omega⟩
    obtain ⟨e, rfl⟩ : ∃ e, g = e + 1 := ⟨g - 1, by simp [jsize, asize] at hf; omega⟩
    exact rfl
  | .arr (.cons h t), d, f, rest, hf, hr => by
    obtain ⟨g, rfl⟩ : ∃ g, f = g + 1 := ⟨f - 1, by simp [jsize, asize] at hf; omega⟩
    obtain ⟨e, rfl⟩ : ∃ e, g = e + 1 :=
      ⟨g - 1, by simp [jsize, asize] at hf; have := jsize_pos h; omega⟩
    have hfh : jsize h ≤ e := by simp [jsize, asize] at hf; omega
    have hft : asize t + 1 ≤ e := by
      simp [jsize, asize] at hf; have := jsize_pos h; omega
    have hs : sVal (.arr (.cons h t)) d ++ rest =
        '[' :: '\n' :: (ind (d + 1) ++ (sVal h (d + 1) ++
          (sArrTail t (d + 1) ++ '\n' :: (ind d ++ ']' :: rest)))) := by
      simp [sVal, List.cons_append, List.append_assoc]
    rw [hs, pVal_lbrack]
    obtain ⟨c, cs, hcs, hws, hrb⟩ := sVal_shape h (d + 1)
    have hskip : skipWs ('\n' :: (ind (d + 1) ++ (sVal h (d + 1) ++
        (sArrTail t (d + 1) ++ '\n' :: (ind d ++ ']' :: rest))))) =
        c :: (cs ++ (sArrTail t (d + 1) ++ '\n' :: (ind d ++ ']' :: rest))) := by
      rw [skipWs_cons_of_ws (by decide), skipWs_ind, hcs, List.cons_append,
        skipWs_cons_of_not hws]
    simp only [pArrAt, hskip]
    rw [if_neg hrb]
    have h1 : pVal e (c :: (cs ++ (sArrTail t (d + 1) ++ '\n' :: (ind d ++ ']' :: rest)))) =
        some (h, sArrTail t (d + 1) ++ '\n' :: (ind d ++ ']' :: rest)) := by
      rw [← List.cons_append, ← hcs]
      exact rtVal h (d + 1) e _ hfh (numSafe_sArrTail t (d + 1) _)
    rw [h1]
    simp [rtArrRest t (d + 1) d e rest hft hr]
  | .obj .nil, d, f, rest, hf, _ => by
    obtain ⟨g, rfl⟩ : ∃ g, f = g + 1 := ⟨f - 1, by simp [jsize, osize] at hf; omega⟩
    obtain ⟨e, rfl⟩ : ∃ e, g = e + 1 := ⟨g - 1, by simp [jsize, osize] at hf; omega⟩
    exact rfl
  | .obj (.cons k v t), d, f, rest, hf, hr => by
    obtain ⟨g, rfl⟩ : ∃ g, f = g + 1 := ⟨f - 1, by simp [jsize, osize] at hf; omega⟩
    obtain ⟨e, rfl⟩ : ∃ e, g = e + 1 :=
      ⟨g - 1, by simp [jsize, osize] at hf; have := jsize_pos v; omega⟩
    have hfv : jsize v ≤ e := by simp [jsize, osize] at hf; omega
    have hft : osize t + 1 ≤ e := by
      simp [jsize, osize] at hf; have := jsize_pos v; omega
    have hs : sVal (.obj (.cons k v t)) d ++ rest =
        '\x7b' :: '\n' :: (ind (d + 1) ++ ('"' :: (escapeList k.data ++
          '"' :: (':' :: ' ' :: (sVal v (d + 1) ++
            (sObjTail t (d + 1) ++ '\n' :: (ind d ++ '\x7d' :: rest))))))) := by
      simp [sVal, quoteStr, List.cons_append, List.append_assoc]
    rw [hs, pVal_lbrace]
    have hskip : skipWs ('\n' :: (ind (d + 1) ++ ('"' :: (escapeList k.data ++
        '"' :: (':' :: ' ' :: (sVal v (d + 1) ++
          (sObjTail t (d + 1) ++ '\n' :: (ind d ++ '\x7d' :: rest)))))))) =
        '"' :: (escapeList k.data ++ '"' :: (':' :: ' ' :: (sVal v (d + 1) ++
          (sObjTail t (d + 1) ++ '\n' :: (ind d ++ '\x7d' :: rest))))) := by
      rw [skipWs_cons_of_ws (by decide), skipWs_ind, skipWs_cons_of_not (by decide)]
    simp only [pObjAt, hskip]
    rw [if_neg (by decide : ¬('"' = '\x7d'))]
    simp only [if_true]
    rw [pStr_quote k (':' :: ' ' :: (sVal v (d + 1) ++
      (sObjTail t (d + 1) ++ '\n' :: (ind d ++ '\x7d' :: rest))))]
    have hskip2 : skipWs (':' :: ' ' :: (sVal v (d + 1) ++
        (sObjTail t (d + 1) ++ '\n' :: (ind d ++ '\x7d' :: rest)))) =
        ':' :: (' ' :: (sVal v (d + 1) ++
          (sObjTail t (d + 1) ++ '\n' :: (ind d ++ '\x7d' :: rest)))) :=
      skipWs_cons_of_not (by decide) _
    simp only [hskip2, if_true]
    have h1 : pVal e (' ' :: (sVal v (d + 1) ++
        (sObjTail t (d + 1) ++ '\n' :: (ind d ++ '\x7d' :: rest)))) =
        some (v, sObjTail t (d + 1) ++ '\n' :: (ind d ++ '\x7d' :: rest)) := by
      rw [pVal_skipWs_congr (skipWs_cons_of_ws (by decide) _) e]
      exact rtVal v (d + 1) e _ hfv (numSafe_sObjTail t (d + 1) _)
    rw [h1]
    simp [rtObjRest t (d + 1) d e rest hft hr]
theorem rtArrRest : ∀ (t : JArr) (din dout f : Nat) (rest : List Char),
    asize t + 1 ≤ f → numSafe rest →
    pArrRest f (sArrTail t din ++ '\n' :: (ind dout ++ ']' :: rest)) = some (t, rest)
  | .nil, din, dout, f, rest, hf, _ => by
    obtain ⟨e, rfl⟩ : ∃ e, f = e + 1 := ⟨f - 1, by omega⟩
    have hskip : skipWs (sArrTail JArr.nil din ++ '\n' :: (ind dout ++ ']' :: rest)) =
        ']' :: rest := by
      rw [sArrTail, List.nil_append, skipWs_cons_of_ws (by decide), skipWs_ind,
        skipWs_cons_of_not (by decide)]
    simp only [pArrRest, hskip, if_true]
  | .cons h t', din, dout, f, rest, hf, hr => by
    obtain ⟨e, rfl⟩ : ∃ e, f = e + 1 := ⟨f - 1, by omega⟩
    have hfh : jsize h ≤ e := by simp [asize] at hf; omega
    have hft : asize t' + 1 ≤ e := by simp [asize] at hf; have := jsize_pos h; omega
    have hs : sArrTail (.cons h t') din ++ '\n' :: (ind dout ++ ']' :: rest) =
        ',' :: ('\n' :: (ind din ++ (sVal h din ++
          (sArrTail t' din ++ '\n' :: (ind dout ++ ']' :: rest))))) := by
      simp [sArrTail, List.cons_append, List.append_assoc]
    rw [hs]
    have hskip : skipWs (',' :: ('\n' :: (ind din ++ (sVal h din ++
        (sArrTail t' din ++ '\n' :: (ind dout ++ ']' :: rest)))))) =
        ',' :: ('\n' :: (ind din ++ (sVal h din ++
          (sArrTail t' din ++ '\n' :: (ind dout ++ ']' :: rest))))) :=
      skipWs_cons_of_not (by decide) _
    simp only [pArrRest, hskip]
    rw [if_neg (by decide : ¬(',' = ']'))]
    simp only [if_true]
    have h1 : pVal e ('\n' :: (ind din ++ (sVal h din ++
        (sArrTail t' din ++ '\n' :: (ind dout ++ ']' :: rest))))) =
        some (h, sArrTail t' din ++ '\n' :: (ind dout ++ ']' :: rest)) := by
      have hcongr := @pVal_skipWs_congr
        ('\n' :: (ind din ++ (sVal h din ++
          (sArrTail t' din ++ '\n' :: (ind dout ++ ']' :: rest)))))
        (sVal h din ++ (sArrTail t' din ++ '\n' :: (ind dout ++ ']' :: rest)))
        (by rw [skipWs_cons_of_ws (by decide), skipWs_ind]) e
      rw [hcongr]
      exact rtVal h din e _ hfh (numSafe_sArrTail t' din _)
    rw [h1]
    simp [rtArrRest t' din dout e rest hft hr]
theorem rtObjRest : ∀ (t : JObj) (din dout f : Nat) (rest : List Char),
    osize t + 1 ≤ f → numSafe rest →
    pObjRest f (sObjTail t din ++ '\n' :: (ind dout ++ '\x7d' :: rest)) = some (t, rest)
  | .nil, din, dout, f, rest, hf, _ => by
    obtain ⟨e, rfl⟩ : ∃ e, f = e + 1 := ⟨f - 1, by omega⟩
    have hskip : skipWs (sObjTail JObj.nil din ++ '\n' :: (ind dout ++ '\x7d' :: rest)) =
        '\x7d' :: rest := by
      rw [sObjTail, List.nil_append, skipWs_cons_of_ws (by decide), skipWs_ind,
        skipWs_cons_of_not (by decide)]
    simp only [pObjRest, hskip, if_true]
  | .cons k v t', din, dout, f, rest, hf, hr => by
    obtain ⟨e, rfl⟩ : ∃ e, f = e + 1 := ⟨f - 1, by omega⟩
    have hfv : jsize v ≤ e := by simp [osize] at hf; omega
    have hft : osize t' + 1 ≤ e := by simp [osize] at hf; have := jsize_pos v; omega
    have hs : sObjTail (.cons k v t') din ++ '\n' :: (ind dout ++ '\x7d' :: rest) =
        ',' :: ('\n' :: (ind din ++ ('"' :: (escapeList k.data ++
          '"' :: (':' :: ' ' :: (sVal v din ++
            (sObjTail t' din ++ '\n' :: (ind dout ++ '\x7d' :: rest)))))))) := by
      simp [sObjTail, quoteStr, List.cons_append, List.append_assoc]
    rw [hs]
    have hskip : skipWs (',' :: ('\n' :: (ind din ++ ('"' :: (escapeList k.data ++
        '"' :: (':' :: ' ' :: (sVal v din ++
          (sObjTail t' din ++ '\n' :: (ind dout ++ '\x7d' :: rest))))))))) =
        ',' :: ('\n' :: (ind din ++ ('"' :: (escapeList k.data ++
          '"' :: (':' :: ' ' :: (sVal v din ++
            (sObjTail t' din ++ '\n' :: (ind dout ++ '\x7d' :: rest)))))))) :=
      skipWs_cons_of_not (by decide) _
    simp only [pObjRest, hskip]
    rw [if_neg (by decide : ¬(',' = '\x7d'))]
    simp only [if_true]
    have hskip2 : skipWs ('\n' :: (ind din ++ ('"' :: (escapeList k.data ++
        '"' :: (':' :: ' ' :: (sVal v din ++
          (sObjTail t' din ++ '\n' :: (ind dout ++ '\x7d' :: rest)))))))) =
        '"' :: (escapeList k.data ++ '"' :: (':' :: ' ' :: (sVal v din ++
          (sObjTail t' din ++ '\n' :: (ind dout ++ '\x7d' :: rest))))) := by
      rw [skipWs_cons_of_ws (by decide), skipWs_ind, skipWs_cons_of_not (by decide)]
    simp only [hskip2, if_true]
    rw [pStr_quote k (':' :: ' ' :: (sVal v din ++
      (sObjTail t' din ++ '\n' :: (ind dout ++ '\x7d' :: rest))))]
    have hskip3 : skipWs (':' :: ' ' :: (sVal v din ++
        (sObjTail t' din ++ '\n' :: (ind dout ++ '\x7d' :: rest)))) =
        ':' :: (' ' :: (sVal v din ++
          (sObjTail t' din ++ '\n' :: (ind dout ++ '\x7d' :: rest)))) :=
      skipWs_cons_of_not (by decide) _
    simp only [hskip3, if_true]
    have h1 : pVal e (' ' :: (sVal v din ++
        (sObjTail t' din ++ '\n' :: (ind dout ++ '\x7d' :: rest)))) =
        some (v, sObjTail t' din ++ '\n' :: (ind dout ++ '\x7d' :: rest)) := by
      rw [pVal_skipWs_congr (skipWs_cons_of_ws (by decide) _) e]
      exact rtVal v din e _ hfv (numSafe_sObjTail t' din _)
    rw [h1]
    simp [rtObjRest t' din dout e rest hft hr]
end

/- The serialized form of a value is at least as long as its structural
size, so the parsing budget chosen by `parseJson` is always sufficient. -/
mutual
theorem sVal_len : ∀ (v : Json) (d : Nat), jsize v ≤ (sVal v d).length
  | .null, _ => by simp only [sVal, jsize]; decide
  | .bool true, _ => by simp only [sVal, jsize]; decide
  | .bool false, _ => by simp only [sVal, jsize]; decide
  | .num (.ofNat n), _ => by
    simp only [sVal, jsize, intChars]
    have := natChars_ne_nil n
    have := List.length_pos.mpr this
    omega
  | .num (.negSucc m), _ => by simp [sVal, jsize, intChars]
  | .str s, _ => by simp [sVal, jsize, quoteStr]
  | .arr .nil, _ => by simp [sVal, jsize, asize]
  | .arr (.cons h t), d => by
    have ih1 := sVal_len h (d + 1)
    have ih2 := sArrTail_len t (d + 1)
    simp only [sVal, jsize, asize, List.length_cons, List.length_append]
    omega
  | .obj .nil, _ => by simp [sVal, jsize, osize]
  | .obj (.cons k v t), d => by
    have ih1 := sVal_len v (d + 1)
    have ih2 := sObjTail_len t (d + 1)
    simp only [sVal, jsize, osize, List.length_cons, List.length_append]
    omega
theorem sArrTail_len : ∀ (a : JArr) (d : Nat), asize a ≤ (sArrTail a d).length
  | .nil, _ => by simp [sArrTail, asize]
  | .cons h t, d => by
    have ih1 := sVal_len h d
    have ih2 := sArrTail_len t d
    simp only [sArrTail, asize, List.length_cons, List.length_append]
    omega
theorem sObjTail_len : ∀ (o : JObj) (d : Nat), osize o ≤ (sObjTail o d).length
  | .nil, _ => by simp [sObjTail, osize]
  | .cons k v t, d => by
    have ih1 := sVal_len v d
    have ih2 := sObjTail_len t d
    simp only [sObjTail, osize, List.length_cons, List.length_append]
    omega
end

theorem parseJson_stringifyPretty (v : Json) : parseJson (stringifyPretty v) = some v := by
  have hlen : jsize v ≤ (stringifyPretty v).length + 1 := by
    have h1 := sVal_len v 0
    have h2 : (stringifyPretty v).length = (sVal v 0).length := rfl
    omega
  have h := rtVal v 0 ((stringifyPretty v).length + 1) [] hlen numSafe_nil
  rw [List.append_nil] at h
  have hd : (stringifyPretty v).data = sVal v 0 := rfl
  rw [parseJson, hd, h]
  simp [skipWs]

/-! ## Supporting lemmas for the claim theorems -/

theorem processQueryGo_texts (callTool : String → Json → Except Unit Json)
    (followUp : Nat → List ContentBlock) :
    ∀ (texts : List String) (k : Nat) (acc : List String) (calls : List (String × Json)),
      processQueryGo callTool followUp (texts.map ContentBlock.text) k acc calls =
        (.ok (String.intercalate "\n" (acc.reverse ++ texts)), calls.reverse)
  | [], k, acc, calls => by simp [processQueryGo]
  | s :: texts, k, acc, calls => by
    rw [List.map_cons, processQueryGo, processQueryGo_texts callTool followUp texts k
      (s :: acc) calls]
    simp

/-! ## The claims -/

/-- C9: the aggregated registry built by `selectServerScript` is the flat
sequence of (backend id, tool) pairs containing exactly the union of the
discovered backends' tools, preserving backend order first and per-backend
tool order second (membership characterization, concatenation homomorphism,
and the single-backend image). -/
theorem claim_c9_aggregate :
    (∀ (infos : List ServerInfo) (b : String) (t : Tool),
        (b, t) ∈ allToolsOf infos ↔ ∃ info ∈ infos, info.path = b ∧ t ∈ info.tools)
    ∧ (∀ xs ys : List ServerInfo, allToolsOf (xs ++ ys) = allToolsOf xs ++ allToolsOf ys)
    ∧ ∀ info : ServerInfo, allToolsOf [info] = info.tools.map fun t => (info.path, t) := by
  refine ⟨?_, ?_, ?_⟩
  · intro infos b t
    simp only [allToolsOf, List.mem_flatMap, List.mem_map]
    constructor
    · rintro ⟨info, hin, t', ht', heq⟩
      rw [Prod.mk.injEq] at heq
      obtain ⟨rfl, rfl⟩ := heq
      exact ⟨info, hin, rfl, ht'⟩
    · rintro ⟨info, hin, hpath, htool⟩
      exact ⟨info, hin, t, htool, by rw [hpath]⟩
  · intro xs ys
    simp [allToolsOf]
  · intro info
    simp [allToolsOf]

/-- C4: classification of the selector's handling of a model response:
no regex match fails with `SelectionParseError` surfacing the raw text; a
match whose trimmed path is not the path of any discovered backend fails
with `UnknownBackendSelected`; a resolved backend without the trimmed tool
name fails with `UnknownToolSelected`; otherwise the selection succeeds
with that backend/tool pair. -/
theorem claim_c4_selection_response (infos : List ServerInfo) (llmText : String) :
    (matchPathName llmText = none →
      selectFromResponse infos llmText = .error (.selectionParseError llmText))
    ∧ ∀ g1 g2, matchPathName llmText = some (g1, g2) →
        ((¬ ∃ info ∈ infos, info.path = jsTrim g1) →
          selectFromResponse infos llmText = .error (.unknownBackendSelected (jsTrim g1)))
        ∧ ∀ info, infos.find? (fun i => i.path == jsTrim g1) = some info →
            info ∈ infos ∧ info.path = jsTrim g1 ∧
            ((¬ ∃ t ∈ info.tools, t.name = jsTrim g2) →
              selectFromResponse infos llmText = .error (.unknownToolSelected (jsTrim g2)))
            ∧ ∀ t, info.tools.find? (fun t => t.name == jsTrim g2) = some t →
                t ∈ info.tools ∧ t.name = jsTrim g2 ∧
                selectFromResponse infos llmText = .ok (info, t) := by
  constructor
  · intro h
    simp only [selectFromResponse, h]
  · intro g1 g2 hm
    constructor
    · intro hne
      have hfind : infos.find? (fun i => i.path == jsTrim g1) = none := by
        rw [List.find?_eq_none]
        intro x hx hbeq
        exact hne ⟨x, hx, by simpa [beq_iff_eq] using hbeq⟩
      simp only [selectFromResponse, hm, hfind]
    · intro info hfi
      refine ⟨List.mem_of_find?_eq_some hfi,
        by simpa [beq_iff_eq] using List.find?_some hfi, ?_, ?_⟩
      · intro hne
        have hft : info.tools.find? (fun t => t.name == jsTrim g2) = none := by
          rw [List.find?_eq_none]
          intro x hx hbeq
          exact hne ⟨x, hx, by simpa [beq_iff_eq] using hbeq⟩
        simp only [selectFromResponse, hm, hfi, hft]
      · intro t hft
        refine ⟨List.mem_of_find?_eq_some hft,
          by simpa [beq_iff_eq] using List.find?_some hft, ?_⟩
        simp only [selectFromResponse, hm, hfi, hft]

/-- Witness for C4 at a concrete unparseable response. -/
theorem claim_c4_witness :
    matchPathName "zzz" = none ∧
    selectFromResponse [] "zzz" = .error (.selectionParseError "zzz") :=
  ⟨rfl, (claim_c4_selection_response [] "zzz").1 rfl⟩

/-- C7: in native invocation mode, a model response consisting only of text
blocks makes the joined text the final answer and attempts no backend
`callTool` invocation, for every backend oracle and follow-up oracle. -/
theorem claim_c7_native_text_short_circuit (texts : List String)
    (callTool : String → Json → Except Unit Json) (followUp : Nat → List ContentBlock) :
    processQuery (texts.map ContentBlock.text) callTool followUp =
      (.ok (String.intercalate "\n" texts), []) := by
  rw [processQuery, processQueryGo_texts]
  simp

/-- C5 counterexample: for the invocation result `[{type:"text", text:""}]`
(one text-typed item whose text is empty), normalization does not return
the blank-line concatenation of the text items (which is the empty string)
— the code falls back to the pretty-printed serialization instead, so the
claim's description of the array case is false as stated. -/
theorem claim_c5_counterexample :
    ¬(normalizeContent (.arr (.cons (.obj (.cons "type" (.str "text")
        (.cons "text" (.str "") .nil))) .nil)) =
      .str (String.intercalate "\n\n" (collectTexts (.cons (.obj (.cons "type" (.str "text")
        (.cons "text" (.str "") .nil))) .nil)))) := by
  intro h
  have h4 := congrArg (fun j => match j with | Json.str s => s | _ => "") h
  exact absurd h4 (by decide)

/-- C5 (amended): normalization of an invocation result joins the texts of
the text-typed items of an array with blank lines, falling back to the
pretty-printed serialization of the whole array when that concatenation is
empty (in particular when no text-typed item exists); a structured object
is pretty-printed; a plain string passes through unchanged; the
`[{type:"text",text:"A"},{type:"text",text:"B"}]` example yields
`"A\n\nB"`; and the pretty-printed serialization of any value parses back
to a structurally equal value. -/
theorem claim_c5_normalization_amended :
    (∀ items : JArr, String.intercalate "\n\n" (collectTexts items) ≠ "" →
        normalizeContent (.arr items) = .str (String.intercalate "\n\n" (collectTexts items)))
    ∧ (∀ items : JArr, String.intercalate "\n\n" (collectTexts items) = "" →
        normalizeContent (.arr items) = .str (stringifyPretty (.arr items)))
    ∧ (∀ o : JObj, normalizeContent (.obj o) = .str (stringifyPretty (.obj o)))
    ∧ (∀ s : String, normalizeContent (.str s) = .str s)
    ∧ normalizeContent (.arr (.cons (.obj (.cons "type" (.str "text")
        (.cons "text" (.str "A") .nil)))
        (.cons (.obj (.cons "type" (.str "text") (.cons "text" (.str "B") .nil))) .nil))) =
      .str "A\n\nB"
    ∧ ∀ v : Json, parseJson (stringifyPretty v) = some v := by
  refine ⟨?_, ?_, fun _ => rfl, fun _ => rfl, rfl, parseJson_stringifyPretty⟩
  · intro items h
    simp [normalizeContent, h]
  · intro items h
    simp [normalizeContent, h]

/-- Witness for C5 at the `A`/`B` example and at the all-empty-text
fallback input. -/
theorem claim_c5_witness :
    (String.intercalate "\n\n" (collectTexts (.cons (.obj (.cons "type" (.str "text")
        (.cons "text" (.str "A") .nil)))
        (.cons (.obj (.cons "type" (.str "text") (.cons "text" (.str "B") .nil))) .nil))) ≠ ""
      ∧ normalizeContent (.arr (.cons (.obj (.cons "type" (.str "text")
          (.cons "text" (.str "A") .nil)))
          (.cons (.obj (.cons "type" (.str "text") (.cons "text" (.str "B") .nil))) .nil))) =
        .str (String.intercalate "\n\n" (collectTexts (.cons (.obj (.cons "type" (.str "text")
          (.cons "text" (.str "A") .nil)))
          (.cons (.obj (.cons "type" (.str "text") (.cons "text" (.str "B") .nil))) .nil)))))
    ∧ (String.intercalate "\n\n" (collectTexts (.cons (.obj (.cons "type" (.str "text")
        (.cons "text" (.str "") .nil))) .nil)) = ""
      ∧ normalizeContent (.arr (.cons (.obj (.cons "type" (.str "text")
          (.cons "text" (.str "") .nil))) .nil)) =
        .str (stringifyPretty (.arr (.cons (.obj (.cons "type" (.str "text")
          (.cons "text" (.str "") .nil))) .nil)))) :=
  ⟨⟨by decide, claim_c5_normalization_amended.1 _ (by decide)⟩,
    ⟨rfl, claim_c5_normalization_amended.2.1 _ rfl⟩⟩

/-- C10: when an invocation-result array contains text-typed items but the
blank-line concatenation of their texts is empty, normalization does not
return the empty string: it falls back to the pretty-printed serialization
of the whole array, which is never empty. -/
theorem claim_c10_empty_text_fallback (items : JArr)
    (hex : ∃ j ∈ items.toList, (itemText j).isSome)
    (hempty : String.intercalate "\n\n" (collectTexts items) = "") :
    normalizeContent (.arr items) = .str (stringifyPretty (.arr items)) ∧
      stringifyPretty (.arr items) ≠ "" := by
  refine ⟨by simp [normalizeContent, hempty], ?_⟩
  obtain ⟨c, cs, hc, _, _⟩ := sVal_shape (.arr items) 0
  intro he
  have hdata : sVal (.arr items) 0 = ([] : List Char) := congrArg String.data he
  rw [hc] at hdata
  exact List.noConfusion hdata

/-- Witness for C10 at `[{type:"text", text:""}]`. -/
theorem claim_c10_witness :
    (∃ j ∈ (JArr.cons (Json.obj (.cons "type" (.str "text") (.cons "text" (.str "") .nil)))
        .nil).toList, (itemText j).isSome)
    ∧ String.intercalate "\n\n" (collectTexts (.cons (.obj (.cons "type" (.str "text")
        (.cons "text" (.str "") .nil))) .nil)) = ""
    ∧ normalizeContent (.arr (.cons (.obj (.cons "type" (.str "text")
        (.cons "text" (.str "") .nil))) .nil)) =
      .str (stringifyPretty (.arr (.cons (.obj (.cons "type" (.str "text")
        (.cons "text" (.str "") .nil))) .nil))) :=
  ⟨⟨Json.obj (.cons "type" (.str "text") (.cons "text" (.str "") .nil)),
      List.mem_singleton.mpr rfl, by decide⟩, rfl,
    (claim_c10_empty_text_fallback
      (JArr.cons (Json.obj (.cons "type" (.str "text") (.cons "text" (.str "") .nil))) .nil)
      ⟨Json.obj (.cons "type" (.str "text") (.cons "text" (.str "") .nil)),
        List.mem_singleton.mpr rfl, by decide⟩ rfl).1⟩

/-- C6 counterexample: the response `name=t, args={oops}` matches the
fixed pattern, but its argument blob is not valid JSON; the failure is the
`JSON.parse` syntax error, not the `ArgumentSynthesisError` the claim
prescribes. -/
theorem claim_c6_counterexample :
    parseToolInstruction "name=t, args=\x7boops\x7d" =
      .error (.jsonSyntaxError "\x7boops\x7d") ∧
    parseToolInstruction "name=t, args=\x7boops\x7d" ≠
      .error (.argumentSynthesisError "name=t, args=\x7boops\x7d") := by
  refine ⟨rfl, ?_⟩
  intro h
  have h2 : (Except.error (GeminiQErr.jsonSyntaxError "\x7boops\x7d") :
      Except GeminiQErr (String × Json)) =
      Except.error (GeminiQErr.argumentSynthesisError "name=t, args=\x7boops\x7d") := h
  simp at h2

/-- C6 (amended): a response not matching `name=(.*?),\s*args=(\{.*\})`
fails with the `ArgumentSynthesisError`; a matching response whose
argument blob is not valid JSON fails with the `JSON.parse` syntax
error — a different error from the `ArgumentSynthesisError`, not the
same one; a matching response with a valid JSON blob yields the trimmed
tool name and the parsed arguments. -/
theorem claim_c6_argument_synthesis_amended (llmText : String) :
    (matchNameArgs llmText = none →
      parseToolInstruction llmText = .error (.argumentSynthesisError llmText))
    ∧ ∀ g1 g2, matchNameArgs llmText = some (g1, g2) →
        (parseJson g2 = none →
          parseToolInstruction llmText = .error (.jsonSyntaxError g2))
        ∧ ∀ j, parseJson g2 = some j →
            parseToolInstruction llmText = .ok (jsTrim g1, j) := by
  refine ⟨fun h => by simp only [parseToolInstruction, h], fun g1 g2 hm => ⟨?_, ?_⟩⟩
  · intro hj
    simp only [parseToolInstruction, hm, hj]
  · intro j hj
    simp only [parseToolInstruction, hm, hj]

/-- Witness for C6 at an unmatched response and at a valid instruction. -/
theorem claim_c6_witness :
    (matchNameArgs "gibberish" = none ∧
      parseToolInstruction "gibberish" = .error (.argumentSynthesisError "gibberish")) ∧
    (matchNameArgs "name=t, args=\x7b\"a\": 1\x7d" = some ("t", "\x7b\"a\": 1\x7d") ∧
      parseJson "\x7b\"a\": 1\x7d" = some (.obj (.cons "a" (.num 1) .nil)) ∧
      parseToolInstruction "name=t, args=\x7b\"a\": 1\x7d" =
        .ok (jsTrim "t", .obj (.cons "a" (.num 1) .nil))) :=
  ⟨⟨rfl, (claim_c6_argument_synthesis_amended "gibberish").1 rfl⟩,
    ⟨rfl, rfl, ((claim_c6_argument_synthesis_amended "name=t, args=\x7b\"a\": 1\x7d").2
      "t" "\x7b\"a\": 1\x7d" rfl).2 (.obj (.cons "a" (.num 1) .nil)) rfl⟩⟩

/-- C8 counterexample: for the locator `srv.txt`, whose extension is
neither recognized kind, the multi-candidate `getServerTools` performs no
validation and chooses the JavaScript interpreter (the spawn proceeds),
while only the single-backend `connectToServer` fails with the validation
error — so the claim is false of the spawn path its own sources cite. -/
theorem claim_c8_counterexample :
    getServerToolsCommand "linux" "/usr/local/bin/node" "srv.txt" = "/usr/local/bin/node" ∧
    connectToServerCommand "linux" "/usr/local/bin/node" "srv.txt" =
      .error "Server script must be a .js or .py file" :=
  ⟨rfl, rfl⟩

/-- C8 (amended): the launch interpreter is chosen from the locator's file
extension with exactly two recognized kinds; in `connectToServer` a
locator with neither extension fails with the validation error before
spawning, while in `getServerTools` no validation occurs: `.py` launches
the Python interpreter (platform dependent) and every other locator —
recognized or not — launches the JavaScript interpreter. -/
theorem claim_c8_spawn_command_amended (platform execPath p : String) :
    (jsEndsWith p ".js" = false → jsEndsWith p ".py" = false →
      connectToServerCommand platform execPath p =
        .error "Server script must be a .js or .py file")
    ∧ (jsEndsWith p ".py" = true →
        connectToServerCommand platform execPath p =
          .ok (if platform = "win32" then "python" else "python3"))
    ∧ (jsEndsWith p ".js" = true → jsEndsWith p ".py" = false →
        connectToServerCommand platform execPath p = .ok execPath)
    ∧ getServerToolsCommand platform execPath p =
        (if jsEndsWith p ".py" then (if platform = "win32" then "python" else "python3")
          else execPath) := by
  refine ⟨?_, ?_, ?_, rfl⟩
  · intro hjs hpy
    simp [connectToServerCommand, hjs, hpy]
  · intro hpy
    simp [connectToServerCommand, hpy]
  · intro hjs hpy
    simp [connectToServerCommand, hjs, hpy]

/-- Witness for C8 at the three extension kinds. -/
theorem claim_c8_witness :
    (jsEndsWith "srv.txt" ".js" = false ∧ jsEndsWith "srv.txt" ".py" = false ∧
      connectToServerCommand "linux" "/usr/local/bin/node" "srv.txt" =
        .error "Server script must be a .js or .py file") ∧
    (jsEndsWith "srv.py" ".py" = true ∧
      connectToServerCommand "linux" "/usr/local/bin/node" "srv.py" =
        .ok (if ("linux" : String) = "win32" then "python" else "python3")) ∧
    (jsEndsWith "srv.js" ".js" = true ∧ jsEndsWith "srv.js" ".py" = false ∧
      connectToServerCommand "linux" "/usr/local/bin/node" "srv.js" =
        .ok "/usr/local/bin/node") :=
  ⟨⟨rfl, rfl, (claim_c8_spawn_command_amended "linux" "/usr/local/bin/node" "srv.txt").1 rfl rfl⟩,
    ⟨rfl, (claim_c8_spawn_command_amended "linux" "/usr/local/bin/node" "srv.py").2.1 rfl⟩,
    ⟨rfl, rfl,
      (claim_c8_spawn_command_amended "linux" "/usr/local/bin/node" "srv.js").2.2.1 rfl rfl⟩⟩

/-- C1 (evaluation at the failing input): with the configured candidates,
the first unreachable and the second discovered with the weather tool, the
model selecting that tool, and the user answering `no` to the confirmation
prompt, the cycle ends declined with no backend invocation — but the
selected backend's connection (id 1) is still open when the loop returns
to awaiting the next query, contradicting the claimed cleanup.  Second
conjunct: on a selection failure (unparseable model response) with both
candidates discovered, the cycle returns to awaiting the next query with
both discovered connections still open — the selector throws before its
close loop and `main` merely logs and continues. -/
theorem claim_c1_decline_leaves_connection_open :
    runCycle
      [("/Users/iida/Desktop/custom-mcp/link-ag-achievement/dist/index.js", .spawnFail),
        ("/Users/iida/Desktop/mcp/weather-nodejs/build/index.js", .ok [weatherTool])]
      ⟨"path=/Users/iida/Desktop/mcp/weather-nodejs/build/index.js, name=get_weather",
        "no", [], fun _ _ => .error (), fun _ => []⟩ =
      (.declined, [1], []) ∧
    runCycle
      [("/Users/iida/Desktop/custom-mcp/link-ag-achievement/dist/index.js", .ok [weatherTool]),
        ("/Users/iida/Desktop/mcp/weather-nodejs/build/index.js", .ok [weatherTool])]
      ⟨"garbage", "ok", [], fun _ _ => .error (), fun _ => []⟩ =
      (.selectionFailed (.selectionParseError "garbage"), [0, 1], []) := ⟨rfl, rfl⟩

/-- C2 (evaluation at the failing input): the first candidate connects but
fails `listTools` (its connection is opened and never closed), the second
is discovered and selected; the selector returns successfully with TWO
connections still open (the leaked id 0 and the selected id 1),
contradicting the claimed "exactly one". -/
theorem claim_c2_success_with_leaked_connection :
    selectServerScript
      [("/Users/iida/Desktop/custom-mcp/link-ag-achievement/dist/index.js", .listToolsFail),
        ("/Users/iida/Desktop/mcp/weather-nodejs/build/index.js", .ok [weatherTool])]
      "path=/Users/iida/Desktop/mcp/weather-nodejs/build/index.js, name=get_weather" =
      (.ok (⟨1, "/Users/iida/Desktop/mcp/weather-nodejs/build/index.js", [weatherTool]⟩,
        weatherTool), [0, 1]) := rfl

/-- C3 (evaluation at the failing input): the first candidate connects but
fails `listTools`, the second fails to spawn; selection fails with
`NoBackendAvailable` as claimed, but the first candidate's connection
(id 0) remains open, contradicting "no connection remains open". -/
theorem claim_c3_no_backend_with_leaked_connection :
    selectServerScript
      [("/Users/iida/Desktop/custom-mcp/link-ag-achievement/dist/index.js", .listToolsFail),
        ("/Users/iida/Desktop/mcp/weather-nodejs/build/index.js", .spawnFail)]
      "anything" =
      (.error .noBackendAvailable, [0]) := rfl
